import Mathlib

/-!
# CluX AI-cache and cost-accounting layer: a shallow embedding

This file embeds the AI response caching and cost-accounting core of the
CluX repository in Lean 4 and proves the specification's claims about it.

Conventions of the embedding:
* JavaScript numbers are modelled by exact rationals (`ℚ`); counts and
  byte sizes by `ℕ`; timestamps (`Date` values / epoch milliseconds) by `ℤ`.
* Cryptographic hashes (`sha256`, `md5`) are modelled by the injective
  function that keeps the hashed string itself: the source treats collision
  risk as negligible, so the hash is observationally an injection.
* The persistence layer (Prisma tables `AICache`, `APIUsage`) is modelled
  by explicit lists of rows threaded through each operation.  `inputHash`
  is `@unique` at the schema level; `hitCount` has schema default 0.
* The cache payload column is `Json`, opaque to the cache service, so the
  store operations are polymorphic in the payload type `π`.
* `async`/`await` sequencing inside one invocation is strictly sequential
  in the source, so each orchestrated call is a pure state transformer;
  the order of its effects is made observable through an event trace.
-/

namespace CluX

/-- Epoch-milliseconds timestamps (`Date` values). -/
abbrev Time := Int

/-- One row of the Prisma `AICache` table (schema: `model AICache`).
`response` is the opaque cached payload (`Json` in the schema). -/
structure CacheEntry (π : Type) where
  type : String
  inputHash : String
  response : π
  model : String
  inputSize : Option Nat
  outputSize : Option Nat
  createdAt : Time
  updatedAt : Time
  expiresAt : Option Time
  hitCount : Nat
deriving Repr, DecidableEq

/-- One row of the Prisma `APIUsage` table (schema: `model APIUsage`).
Token counts are JS numbers in the source (`batch.join(' ').length / 4`
can be fractional), hence `ℚ`. -/
structure UsageRecord where
  type : String
  model : String
  inputTokens : Option ℚ
  outputTokens : Option ℚ
  inputMinutes : Option ℚ
  estimatedCost : ℚ
  cached : Bool
  timestamp : Time
  videoId : Option String
  userId : Option String
deriving Repr, DecidableEq

/-- `AICacheService.generateHash`: `sha256(`model`:`content`)`, with the
hash modelled as the injective identity on the hashed string. -/
def generateHash (content model : String) : String :=
  model ++ ":" ++ content

/-- `prisma.aICache.findUnique({ where: { inputHash: hash } })`. -/
def findUnique {π : Type} (store : List (CacheEntry π)) (hash : String) :
    Option (CacheEntry π) :=
  store.find? (fun e => e.inputHash = hash)

/-- `cached.expiresAt && cached.expiresAt < new Date()`: JS truthiness of
`expiresAt` (non-null) together with strict comparison against now. -/
def entryExpired {π : Type} (e : CacheEntry π) (now : Time) : Bool :=
  match e.expiresAt with
  | some t => t < now
  | none => false

/-- `AICacheService.delete`: `prisma.aICache.delete({ where: { inputHash } })`
(delete by the unique key). -/
def cacheDelete {π : Type} (store : List (CacheEntry π)) (hash : String) :
    List (CacheEntry π) :=
  store.filter (fun e => ¬ e.inputHash = hash)

/-- The `hitCount: { increment: 1 }` update of `AICacheService.get`,
applied at the unique `inputHash`. -/
def incrementHit {π : Type} (store : List (CacheEntry π)) (hash : String) :
    List (CacheEntry π) :=
  store.map (fun e =>
    if e.inputHash = hash then { e with hitCount := e.hitCount + 1 } else e)

/-- `AICacheService.get`: re-derive the fingerprint, look the entry up;
a found entry whose `expiresAt` is in the past is deleted and reported
absent (lazy expiration); otherwise `hitCount` is incremented and the
payload returned.  Returns the result together with the updated store.
(The surrounding `try/catch` degrades persistence errors to a miss; the
persistence model itself never fails.) -/
def cacheGet {π : Type} (now : Time) (store : List (CacheEntry π))
    (_type content model : String) : Option π × List (CacheEntry π) :=
  let hash := generateHash content model
  match findUnique store hash with
  | none => (none, store)
  | some cached =>
    if entryExpired cached now then
      (none, cacheDelete store hash)
    else
      (some cached.response, incrementHit store hash)

/-- `expirationDays ? new Date(Date.now() + expirationDays*24*60*60*1000) : null`
— note JS truthiness: `expirationDays = 0` also yields `null`. -/
def expiryFromDays (now : Time) (expirationDays : Option Nat) : Option Time :=
  match expirationDays with
  | some d => if d = 0 then none else some (now + d * 24 * 60 * 60 * 1000)
  | none => none

/-- `AICacheService.set`: `prisma.aICache.upsert` keyed by the fingerprint.
The `update` branch overwrites `response`, `inputSize`, `outputSize`,
`expiresAt`, `updatedAt` (leaving `type`, `model`, `createdAt`, `hitCount`);
the `create` branch inserts a fresh row, whose `hitCount` is the schema
default 0 and whose `createdAt` is `now()`. -/
def cacheSet {π : Type} (now : Time) (store : List (CacheEntry π))
    (type content model : String) (response : π)
    (expirationDays : Option Nat) (inputSize outputSize : Option Nat) :
    List (CacheEntry π) :=
  let hash := generateHash content model
  let expiresAt := expiryFromDays now expirationDays
  match findUnique store hash with
  | some _ =>
    store.map (fun e =>
      if e.inputHash = hash then
        { e with response := response, inputSize := inputSize,
                 outputSize := outputSize, expiresAt := expiresAt,
                 updatedAt := now }
      else e)
  | none =>
    store ++ [{ type := type, inputHash := hash, response := response,
                model := model, inputSize := inputSize,
                outputSize := outputSize, createdAt := now,
                updatedAt := now, expiresAt := expiresAt, hitCount := 0 }]

/-- `AICacheService.clearExpired`:
`deleteMany({ where: { expiresAt: { lt: new Date() } } })`. -/
def clearExpired {π : Type} (now : Time) (store : List (CacheEntry π)) :
    List (CacheEntry π) × Nat :=
  let remaining := store.filter (fun e => ¬ entryExpired e now)
  (remaining, store.length - remaining.length)

/-! ## APIUsageTracker: rate table, cost model, ledger -/

/-- One entry of `APIUsageTracker.COST_RATES`: either a per-minute audio
rate or per-1K-token input/output rates. -/
structure ModelRates where
  perMinute : Option ℚ
  inputPer1K : Option ℚ
  outputPer1K : Option ℚ
deriving Repr, DecidableEq

/-- `APIUsageTracker.COST_RATES` (January-2024 pricing constants);
`none` for a `modelId` that is not a key of the table. -/
def COST_RATES : String → Option ModelRates
  | "whisper-1" => some ⟨some 0.006, none, none⟩
  | "gpt-4o-mini" => some ⟨none, some 0.00015, some 0.0006⟩
  | "text-embedding-3-small" => some ⟨none, some 0.00002, none⟩
  | "text-embedding-3-large" => some ⟨none, some 0.00013, none⟩
  | _ => none

/-- JS truthiness of an optional numeric argument (`inputTokens &&`,
`inputMinutes &&`): present and non-zero. -/
def numTruthy (q : Option ℚ) : Bool :=
  match q with
  | some v => v ≠ 0
  | none => false

/-- `APIUsageTracker.calculateCost`: unknown model ⇒ 0; transcription with
truthy minutes and a `perMinute` rate ⇒ minutes × rate; completion or
embedding with an `inputPer1K` rate ⇒ tokens/1000 × rate summed over the
input component and, when an `outputPer1K` rate exists, the output
component; otherwise 0. -/
def calculateCost (type _model : String) (rates : Option ModelRates)
    (inputTokens outputTokens inputMinutes : Option ℚ) : ℚ :=
  match rates with
  | none => 0
  | some r =>
    if type = "transcription" ∧ numTruthy inputMinutes ∧ r.perMinute.isSome then
      inputMinutes.getD 0 * r.perMinute.getD 0
    else if (type = "completion" ∨ type = "embedding") ∧ r.inputPer1K.isSome then
      (if numTruthy inputTokens then
        inputTokens.getD 0 / 1000 * r.inputPer1K.getD 0
      else 0)
      +
      (if numTruthy outputTokens ∧ r.outputPer1K.isSome then
        outputTokens.getD 0 / 1000 * r.outputPer1K.getD 0
      else 0)
    else 0

/-- `calculateCost` as called: rates looked up in `COST_RATES` by model. -/
def calculateCostFor (type model : String)
    (inputTokens outputTokens inputMinutes : Option ℚ) : ℚ :=
  calculateCost type model (COST_RATES model) inputTokens outputTokens inputMinutes

/-- `APIUsageTracker.trackUsage`: computes the estimated cost through
`calculateCost` and appends one `APIUsage` row (`cached: params.cached || false`,
`timestamp` defaulted to `now()`).  Append-only; errors are swallowed. -/
def trackUsage (now : Time) (ledger : List UsageRecord)
    (type model : String) (inputTokens outputTokens inputMinutes : Option ℚ)
    (cached : Option Bool) (videoId userId : Option String) :
    List UsageRecord :=
  ledger ++ [{
    type := type, model := model,
    inputTokens := inputTokens, outputTokens := outputTokens,
    inputMinutes := inputMinutes,
    estimatedCost := calculateCostFor type model inputTokens outputTokens inputMinutes,
    cached := cached.getD false, timestamp := now,
    videoId := videoId, userId := userId }]

/-- The `whereClause` of `APIUsageTracker.getUsageStats`: optional
`timestamp.gte` / `timestamp.lte` bounds and optional `userId` equality. -/
def usageWhere (startDate endDate : Option Time) (userId : Option String)
    (r : UsageRecord) : Bool :=
  (match startDate with | some s => s ≤ r.timestamp | none => true) &&
  (match endDate with | some e => r.timestamp ≤ e | none => true) &&
  (match userId with | some u => r.userId = some u | none => true)

/-- Result shape of `getUsageStats` (interface `UsageStats`); `byType` and
`byModel` pair each group key with its request count and summed cost. -/
structure UsageStats where
  totalCost : ℚ
  totalRequests : Nat
  byType : List (String × Nat × ℚ)
  byModel : List (String × Nat × ℚ)
  cacheHitRate : ℚ
  periodSavings : ℚ
deriving Repr, DecidableEq

/-- A Prisma `groupBy` with `_count: { id }` and `_sum: { estimatedCost }`. -/
def groupCountCost (rows : List UsageRecord) (key : UsageRecord → String) :
    List (String × Nat × ℚ) :=
  ((rows.map key).dedup).map (fun k =>
    let grp := rows.filter (fun r => key r = k)
    (k, grp.length, (grp.map (·.estimatedCost)).sum))

/-- `APIUsageTracker.estimateCachedOriginalCost`: flat $0.01 average per
cached request. -/
def estimateCachedOriginalCost (cachedRequests : Nat) : ℚ :=
  cachedRequests * 0.01

/-- `APIUsageTracker.getUsageStats`: filters the ledger by the where
clause, then computes totals, per-type and per-model groupings, the
cache-hit rate `(cachedRequests / totalRequests) * 100` (0 on an empty
result set), and `periodSavings` from the flat per-request estimate. -/
def getUsageStats (ledger : List UsageRecord)
    (startDate endDate : Option Time) (userId : Option String) : UsageStats :=
  let rows := ledger.filter (usageWhere startDate endDate userId)
  let totalRequests := rows.length
  let cachedRequests := (rows.filter (·.cached)).length
  let cacheHitRate : ℚ :=
    if totalRequests > 0 then ((cachedRequests : ℚ) / totalRequests) * 100 else 0
  { totalCost := (rows.map (·.estimatedCost)).sum
    totalRequests := totalRequests
    byType := groupCountCost rows (·.type)
    byModel := groupCountCost rows (·.model)
    cacheHitRate := cacheHitRate
    periodSavings := estimateCachedOriginalCost cachedRequests }

/-! ## AICacheService analytics: estimateCostSavings and getStats -/

/-- Result shape of `estimateCostSavings` (interface `CostSavings`). -/
structure CostSavings where
  transcription : ℚ
  highlights : ℚ
  embeddings : ℚ
  total : ℚ
deriving Repr, DecidableEq

/-- The `costPerHit` literal of `estimateCostSavings`, with the
`costPerHit[stat.type] || 0` fallback for other types. -/
def costPerHit : String → ℚ
  | "transcription" => 0.03
  | "highlights" => 0.002
  | "embeddings" => 0.001
  | "summary" => 0.001
  | _ => 0

/-- One iteration of the `for (const stat of cacheStats)` loop: the
per-type cost is assigned to the matching field when `stat.type in savings`
(the object's keys being `transcription`, `highlights`, `embeddings`,
`total`), then added to `total`. -/
def applySaving (s : CostSavings) (type : String) (hits : Nat) : CostSavings :=
  let cost := costPerHit type * hits
  let s1 :=
    if type = "transcription" then { s with transcription := cost }
    else if type = "highlights" then { s with highlights := cost }
    else if type = "embeddings" then { s with embeddings := cost }
    else if type = "total" then { s with total := cost }
    else s
  { s1 with total := s1.total + cost }

/-- `AICacheService.estimateCostSavings`: group the cache by `type`,
sum `hitCount` per group, and fold the flat per-hit costs. -/
def estimateCostSavings {π : Type} (cache : List (CacheEntry π)) : CostSavings :=
  let types := (cache.map (·.type)).dedup
  types.foldl
    (fun s t =>
      applySaving s t ((cache.filter (fun e => e.type = t)).map (·.hitCount)).sum)
    ⟨0, 0, 0, 0⟩

/-- Result shape of `getStats` (interface `CacheStats`). -/
structure CacheStats where
  byType : List (String × Nat)
  total : Nat
  hitRate : ℚ
  estimatedSavings : ℚ
deriving Repr, DecidableEq

/-- `AICacheService.getStats`: `totalUsage` counts every `APIUsage` row
(no `cached` filter), `cacheUsage` sums `hitCount` over the cache table;
`hitRate = hitSum / (usageCount + hitSum) * 100` (0 when both are 0);
`estimatedSavings` is `estimateCostSavings(...).total`. -/
def getStats {π : Type} (cache : List (CacheEntry π))
    (ledger : List UsageRecord) : CacheStats :=
  let usageCount := ledger.length
  let hitSum := (cache.map (·.hitCount)).sum
  let totalRequests := usageCount + hitSum
  let hitRate : ℚ :=
    if totalRequests > 0 then ((hitSum : ℚ) / totalRequests) * 100 else 0
  { byType := ((cache.map (·.type)).dedup).map (fun t =>
      (t, (cache.filter (fun e => e.type = t)).length))
    total := cache.length
    hitRate := hitRate
    estimatedSavings := (estimateCostSavings cache).total }

/-! ## Cached invocation orchestrators (`ai-services-cached`)

Each orchestrated call is strictly sequential (`await` chains), so it is a
pure transformer of the persistent state (cache table + usage ledger).
The order of its observable effects within one invocation is recorded in
an event trace.  The AI provider and the JSON serializer are external
collaborators, passed in as the outcome/length they produce for this
invocation. -/

/-- Observable steps of one orchestrated invocation. -/
inductive OrchEvent where
  | fingerprint
  | lookup
  | callProvider
  | store
  | recordHit
  | recordMiss
deriving Repr, DecidableEq, BEq

/-- The persistent state one capability touches: its slice of the
`AICache` table and the `APIUsage` ledger. -/
structure CapState (π : Type) where
  cache : List (CacheEntry π)
  ledger : List UsageRecord
deriving Repr, DecidableEq

/-- Result of one orchestrated invocation: the value or the wrapped error,
the updated persistent state, and the trace of effects. -/
structure OrchResult (α π : Type) where
  result : Except String α
  state : CapState π
  trace : List OrchEvent

/-- `interface TranscriptionSegment` of `openai.ts`. -/
structure TranscriptionSegment where
  id : Nat
  seek : Nat
  start : ℚ
  stop : ℚ
  text : String
  tokens : List Nat
  temperature : ℚ
  avg_logprob : ℚ
  compress_quotient : ℚ
  no_speech_prob : ℚ
deriving Repr, DecidableEq

/-- `interface TranscriptionResponse` of `openai.ts`. -/
structure TranscriptionResponse where
  task : String
  language : String
  duration : ℚ
  text : String
  segments : List TranscriptionSegment
deriving Repr, DecidableEq

/-- One element of `HighlightResponse.highlights` (`openai.ts`); the
`type` union of string literals is modelled by `String`. -/
structure Highlight where
  type : String
  text : String
  startTime : ℚ
  endTime : ℚ
  confidence : ℚ
  summary : String
deriving Repr, DecidableEq

/-- `interface HighlightResponse` of `openai.ts`. -/
structure HighlightResponse where
  highlights : List Highlight
  summary : String
  keyTopics : List String
deriving Repr, DecidableEq

/-- Outcome of one `openai.chat.completions.create` call followed by
`JSON.parse` of its content: the call threw, the parse threw, or a parsed
value was obtained together with the `usage` token counts (the source
defaults absent counts with `|| 0`, folded into the two `Nat`s here). -/
inductive ChatOutcome (β : Type) where
  | callFailed (msg : String)
  | parseFailed (msg : String)
  | parsed (value : β) (promptTokens completionTokens : Nat)
deriving Repr, DecidableEq

/-- The parsed highlight JSON before validation: `highlights` is `none`
when the field is missing or not an array
(`!result.highlights || !Array.isArray(result.highlights)`). -/
structure ParsedHighlights where
  highlights : Option (List Highlight)
  summary : String
  keyTopics : List String
deriving Repr, DecidableEq

/-- The parsed topic JSON: `topics` is `none` when `result.topics` is
missing/falsy (`result.topics || []`). -/
structure ParsedTopics where
  topics : Option (List String)
deriving Repr, DecidableEq

/-- `AI_CONFIG.transcription.model`. -/
def transcriptionModel : String := "whisper-1"

/-- `AI_CONFIG.highlights.model`. -/
def highlightsModel : String := "gpt-4o-mini"

/-- `AI_CONFIG.completion.model`. -/
def completionModel : String := "gpt-4o-mini"

/-- `AI_CONFIG.embeddings.model`. -/
def embeddingsModel : String := "text-embedding-3-small"

/-- JS `a || d` on an optional string: `none` and `""` are falsy. -/
def jsOr (s : Option String) (d : String) : String :=
  match s with
  | some v => if v = "" then d else v
  | none => d

/-- The transcription cache key
`` `${fileHash}:${language || 'en'}` `` (`fileHash` is the md5 of the full
file bytes, abstracted as an opaque content-derived string). -/
def transcriptionCacheKey (fileHash : String) (language : Option String) :
    String :=
  fileHash ++ ":" ++ jsOr language "en"

/-- Math.ceil of a rational, as a rational (`Math.ceil(x)`). -/
def mathCeil (x : ℚ) : ℚ := (⌈x⌉ : ℤ)

/-- `transcribeAudioCached`: fingerprint from file content hash and
language, cache lookup, on hit record a `cached=true` usage row from the
cached duration and return; on miss call Whisper, record a `cached=false`
usage row from the fresh duration, store the result with a 60-day TTL,
and return it; a provider failure is wrapped as
`Transcription failed: <cause>` with no usage row and no cache write.
File IO is abstracted: `fileHash`/`fileLength` stand for the md5 and byte
length of the read file, `stringifyLength` for `JSON.stringify(·).length`. -/
def transcribeAudioCached (now : Time) (fileHash : String) (fileLength : Nat)
    (language : Option String) (videoId userId : Option String)
    (provider : Except String TranscriptionResponse)
    (stringifyLength : TranscriptionResponse → Nat)
    (st : CapState TranscriptionResponse) :
    OrchResult TranscriptionResponse TranscriptionResponse :=
  let cacheKey := transcriptionCacheKey fileHash language
  let model := transcriptionModel
  let lookedUp := cacheGet now st.cache "transcription" cacheKey model
  match lookedUp.1 with
  | some cached =>
    let ledger1 := trackUsage now st.ledger "transcription" model none none
      (some cached.duration) (some true) videoId userId
    { result := .ok cached, state := ⟨lookedUp.2, ledger1⟩,
      trace := [.fingerprint, .lookup, .recordHit] }
  | none =>
    match provider with
    | .error msg =>
      { result := .error ("Transcription failed: " ++ msg),
        state := ⟨lookedUp.2, st.ledger⟩,
        trace := [.fingerprint, .lookup, .callProvider] }
    | .ok result =>
      let ledger1 := trackUsage now st.ledger "transcription" model none none
        (some result.duration) (some false) videoId userId
      let cache2 := cacheSet now lookedUp.2 "transcription" cacheKey model
        result (some 60) (some fileLength) (some (stringifyLength result))
      { result := .ok result, state := ⟨cache2, ledger1⟩,
        trace := [.fingerprint, .lookup, .callProvider, .recordMiss, .store] }

/-- The segment shape taken by highlight generation
(`Array<{ text, startTime, endTime }>`). -/
structure TimedSegment where
  text : String
  startTime : ℚ
  endTime : ℚ
deriving Repr, DecidableEq

/-- Deterministic stand-in for `JSON.stringify(segments)` inside the
highlight cache key. -/
def encodeSegments (segments : List TimedSegment) : String :=
  String.intercalate "|" (segments.map (fun s =>
    s.text ++ "@" ++ toString s.startTime ++ "-" ++ toString s.endTime))

/-- The highlight cache key
`` md5(`${transcript}:${JSON.stringify(segments)}`) ``, md5 modelled
injectively. -/
def highlightsCacheKey (transcript : String)
    (segments : List TimedSegment) : String :=
  transcript ++ ":" ++ encodeSegments segments

/-- `generateHighlightsCached`: fingerprint over transcript+segments,
cache lookup; a hit records estimated tokens (`ceil(length/3.5)` input,
500 output) as `cached=true` and returns; a miss calls GPT, parses the
JSON, validates `highlights` is an array — a call, parse or validation
failure yields `Highlight generation failed: <cause>` with no usage row
and no cache write; on success records the real token usage as
`cached=false` and stores the result with a 90-day TTL. -/
def generateHighlightsCached (now : Time) (transcript : String)
    (segments : List TimedSegment) (videoId userId : Option String)
    (outcome : ChatOutcome ParsedHighlights)
    (stringifyLength : HighlightResponse → Nat)
    (st : CapState HighlightResponse) :
    OrchResult HighlightResponse HighlightResponse :=
  let model := highlightsModel
  let cacheKey := highlightsCacheKey transcript segments
  let lookedUp := cacheGet now st.cache "highlights" cacheKey model
  match lookedUp.1 with
  | some cached =>
    let estimatedInputTokens := mathCeil ((transcript.length : ℚ) / 3.5)
    let ledger1 := trackUsage now st.ledger "completion" model
      (some estimatedInputTokens) (some 500) none (some true) videoId userId
    { result := .ok cached, state := ⟨lookedUp.2, ledger1⟩,
      trace := [.fingerprint, .lookup, .recordHit] }
  | none =>
    match outcome with
    | .callFailed msg =>
      { result := .error ("Highlight generation failed: " ++ msg),
        state := ⟨lookedUp.2, st.ledger⟩,
        trace := [.fingerprint, .lookup, .callProvider] }
    | .parseFailed msg =>
      { result := .error ("Highlight generation failed: " ++ msg),
        state := ⟨lookedUp.2, st.ledger⟩,
        trace := [.fingerprint, .lookup, .callProvider] }
    | .parsed v promptTokens completionTokens =>
      match v.highlights with
      | none =>
        { result :=
            .error "Highlight generation failed: Invalid highlights response format",
          state := ⟨lookedUp.2, st.ledger⟩,
          trace := [.fingerprint, .lookup, .callProvider] }
      | some hs =>
        let result : HighlightResponse :=
          { highlights := hs, summary := v.summary, keyTopics := v.keyTopics }
        let ledger1 := trackUsage now st.ledger "completion" model
          (some (promptTokens : ℚ)) (some (completionTokens : ℚ)) none
          (some false) videoId userId
        let cache2 := cacheSet now lookedUp.2 "highlights" cacheKey model
          result (some 90) (some transcript.length)
          (some (stringifyLength result))
        { result := .ok result, state := ⟨cache2, ledger1⟩,
          trace := [.fingerprint, .lookup, .callProvider, .recordMiss, .store] }

/-- Result of one `extractKeyTopicsCached` invocation — there is no error
channel: every failure resolves to a plain value. -/
structure TopicsResult where
  topics : List String
  state : CapState (List String)
  trace : List OrchEvent

/-- `extractKeyTopicsCached`: like the siblings on hit and on success
(60-day TTL, `topics:`-prefixed key), but its `catch` swallows every
failure and returns `[]` instead of propagating a labeled error. -/
def extractKeyTopicsCached (now : Time) (transcript : String)
    (videoId userId : Option String)
    (outcome : ChatOutcome ParsedTopics)
    (stringifyLength : List String → Nat)
    (st : CapState (List String)) : TopicsResult :=
  let model := completionModel
  let cacheKey := "topics:" ++ transcript
  let lookedUp := cacheGet now st.cache "topics" cacheKey model
  match lookedUp.1 with
  | some cached =>
    let estimatedInputTokens := mathCeil ((transcript.length : ℚ) / 3.5)
    let ledger1 := trackUsage now st.ledger "completion" model
      (some estimatedInputTokens) (some 50) none (some true) videoId userId
    { topics := cached, state := ⟨lookedUp.2, ledger1⟩,
      trace := [.fingerprint, .lookup, .recordHit] }
  | none =>
    match outcome with
    | .callFailed _ =>
      { topics := [], state := ⟨lookedUp.2, st.ledger⟩,
        trace := [.fingerprint, .lookup, .callProvider] }
    | .parseFailed _ =>
      { topics := [], state := ⟨lookedUp.2, st.ledger⟩,
        trace := [.fingerprint, .lookup, .callProvider] }
    | .parsed v promptTokens completionTokens =>
      let topics := v.topics.getD []
      let ledger1 := trackUsage now st.ledger "completion" model
        (some (promptTokens : ℚ)) (some (completionTokens : ℚ)) none
        (some false) videoId userId
      let cache2 := cacheSet now lookedUp.2 "topics" cacheKey model topics
        (some 60) (some transcript.length) (some (stringifyLength topics))
      { topics := topics, state := ⟨cache2, ledger1⟩,
        trace := [.fingerprint, .lookup, .callProvider, .recordMiss, .store] }

/-! ## Batched embeddings (`generateEmbeddingsCached`) -/

/-- The batches visited by the loop
`for (let i = 0; i < texts.length; i += batchSize) texts.slice(i, i + batchSize)`:
consecutive chunks of `n` elements, the last possibly shorter. -/
def chunksOf {α : Type} : Nat → List α → List (List α)
  | _, [] => []
  | 0, _ :: _ => []
  | n + 1, x :: xs =>
    (x :: xs).take (n + 1) :: chunksOf (n + 1) ((x :: xs).drop (n + 1))
termination_by _ l => l.length
decreasing_by simp [List.length_drop]; omega

/-- Deterministic stand-in for `JSON.stringify(batch)` over a text batch. -/
def encodeBatchTexts (batch : List String) : String :=
  "[" ++ String.intercalate "," (batch.map (fun t => "\"" ++ t ++ "\"")) ++ "]"

/-- The per-batch cache key
`` md5(`${JSON.stringify(batch)}:${model}`) ``, md5 modelled injectively. -/
def embBatchKey (batch : List String) (model : String) : String :=
  encodeBatchTexts batch ++ ":" ++ model

/-- `batch.join(' ').length` — the size figure used for the hit-side token
estimate and the stored `inputSize`. -/
def batchJoinLength (batch : List String) : Nat :=
  (String.intercalate " " batch).length

/-- The body of `generateEmbeddingsCached`: walk the batches sequentially;
per batch, fingerprint and look up the cache — a hit appends the cached
vectors and a `cached=true` usage row (tokens `join(' ').length / 4`); a
miss calls the provider once, appends its vectors, records a
`cached=false` row with the real token count and stores the batch with a
180-day TTL.  A provider failure aborts the loop (the wrapper labels it).
Returns the vectors (input order), the final state, and the number of
provider invocations. -/
def generateEmbeddingsLoop (now : Time)
    (provider : List String → Except String (List (List ℚ) × Nat))
    (stringifyLength : List (List ℚ) → Nat)
    (videoId userId : Option String)
    (texts : List String) (st : CapState (List (List ℚ))) :
    Except String (List (List ℚ)) × CapState (List (List ℚ)) × Nat :=
  match texts with
  | [] => (.ok [], st, 0)
  | t :: ts =>
    let model := embeddingsModel
    let batch := (t :: ts).take 100
    let rest := (t :: ts).drop 100
    let batchKey := embBatchKey batch model
    let lookedUp := cacheGet now st.cache "embeddings" batchKey model
    match lookedUp.1 with
    | some cached =>
      let ledger1 := trackUsage now st.ledger "embedding" model
        (some ((batchJoinLength batch : ℚ) / 4)) none none (some true)
        videoId userId
      let tail := generateEmbeddingsLoop now provider stringifyLength
        videoId userId rest ⟨lookedUp.2, ledger1⟩
      match tail.1 with
      | .ok tailVecs => (.ok (cached ++ tailVecs), tail.2.1, tail.2.2)
      | .error msg => (.error msg, tail.2.1, tail.2.2)
    | none =>
      match provider batch with
      | .error msg => (.error msg, ⟨lookedUp.2, st.ledger⟩, 1)
      | .ok (batchEmbeddings, promptTokens) =>
        let ledger1 := trackUsage now st.ledger "embedding" model
          (some (promptTokens : ℚ)) none none (some false) videoId userId
        let cache2 := cacheSet now lookedUp.2 "embeddings" batchKey model
          batchEmbeddings (some 180) (some (batchJoinLength batch))
          (some (stringifyLength batchEmbeddings))
        let tail := generateEmbeddingsLoop now provider stringifyLength
          videoId userId rest ⟨cache2, ledger1⟩
        match tail.1 with
        | .ok tailVecs =>
          (.ok (batchEmbeddings ++ tailVecs), tail.2.1, tail.2.2 + 1)
        | .error msg => (.error msg, tail.2.1, tail.2.2 + 1)
termination_by texts.length
decreasing_by all_goals simp [List.length_drop]; omega

/-- `generateEmbeddingsCached`: run the batch loop; a failure from any
batch is wrapped as `Embedding generation failed: <cause>`. -/
def generateEmbeddingsCached (now : Time) (texts : List String)
    (videoId userId : Option String)
    (provider : List String → Except String (List (List ℚ) × Nat))
    (stringifyLength : List (List ℚ) → Nat)
    (st : CapState (List (List ℚ))) :
    Except String (List (List ℚ)) × CapState (List (List ℚ)) × Nat :=
  let r := generateEmbeddingsLoop now provider stringifyLength videoId userId
    texts st
  match r.1 with
  | .ok vecs => (.ok vecs, r.2.1, r.2.2)
  | .error msg => (.error ("Embedding generation failed: " ++ msg), r.2.1, r.2.2)

/-! ## Theorems -/

/-- An optional quantity all of whose values are non-negative has a
non-negative `getD 0`. -/
theorem getD_zero_nonneg (q : Option ℚ) (h : ∀ v ∈ q, 0 ≤ v) :
    0 ≤ q.getD 0 := by
  cases q with
  | none => simp
  | some v => simpa using h v rfl

/-- Every rate in the `COST_RATES` table is non-negative. -/
theorem COST_RATES_nonneg (model : String) (r : ModelRates)
    (h : COST_RATES model = some r) :
    (∀ v ∈ r.perMinute, 0 ≤ v) ∧ (∀ v ∈ r.inputPer1K, 0 ≤ v) ∧
    (∀ v ∈ r.outputPer1K, 0 ≤ v) := by
  unfold COST_RATES at h
  split at h
  all_goals first
  | exact Option.noConfusion h
  | (cases h
     refine ⟨?_, ?_, ?_⟩ <;> intro v hv <;>
       simp only [Option.mem_def, Option.some.injEq] at hv
     all_goals first
     | exact Option.noConfusion hv
     | (subst hv; norm_num))

/-- C6: the cost model is total (a pure Lean function, no failure
channel); an unknown `modelId` yields 0; the result is non-negative for
non-negative quantities; and on each defined model the result is the
exact `quantity/unit × rate` arithmetic, summed over input and output
components when both rates exist, with no rounding. -/
theorem calculateCost_spec :
    (∀ type model inT outT inM, COST_RATES model = none →
      calculateCostFor type model inT outT inM = 0)
    ∧ (∀ type model inT outT inM,
        (∀ v ∈ inT, (0:ℚ) ≤ v) → (∀ v ∈ outT, (0:ℚ) ≤ v) →
        (∀ v ∈ inM, (0:ℚ) ≤ v) →
        0 ≤ calculateCostFor type model inT outT inM)
    ∧ (∀ m : ℚ,
        calculateCostFor "transcription" "whisper-1" none none (some m)
          = m * 0.006)
    ∧ (∀ i o : ℚ,
        calculateCostFor "completion" "gpt-4o-mini" (some i) (some o) none
          = i / 1000 * 0.00015 + o / 1000 * 0.0006)
    ∧ (∀ i : ℚ,
        calculateCostFor "embedding" "text-embedding-3-small" (some i) none none
          = i / 1000 * 0.00002)
    ∧ (∀ i : ℚ,
        calculateCostFor "embedding" "text-embedding-3-large" (some i) none none
          = i / 1000 * 0.00013) := by
  refine ⟨?_, ?_, ?_, ?_, ?_, ?_⟩
  · intro type model inT outT inM h
    simp [calculateCostFor, calculateCost, h]
  · intro type model inT outT inM hT hO hM
    unfold calculateCostFor calculateCost
    cases hr : COST_RATES model with
    | none => simp
    | some r =>
      obtain ⟨hpm, hin, hout⟩ := COST_RATES_nonneg model r hr
      have h1 : (0:ℚ) ≤ inM.getD 0 * r.perMinute.getD 0 :=
        mul_nonneg (getD_zero_nonneg _ hM) (getD_zero_nonneg _ hpm)
      have h2 : (0:ℚ) ≤ inT.getD 0 / 1000 * r.inputPer1K.getD 0 :=
        mul_nonneg (div_nonneg (getD_zero_nonneg _ hT) (by norm_num))
          (getD_zero_nonneg _ hin)
      have h3 : (0:ℚ) ≤ outT.getD 0 / 1000 * r.outputPer1K.getD 0 :=
        mul_nonneg (div_nonneg (getD_zero_nonneg _ hO) (by norm_num))
          (getD_zero_nonneg _ hout)
      dsimp only
      split
      · exact h1
      · split
        · apply add_nonneg
          · split
            · exact h2
            · exact le_refl 0
          · split
            · exact h3
            · exact le_refl 0
        · exact le_refl 0
  · intro m
    by_cases hm : m = 0
    · subst hm
      simp [calculateCostFor, calculateCost, COST_RATES, numTruthy]
    · simp [calculateCostFor, calculateCost, COST_RATES, numTruthy, hm]
  · intro i o
    by_cases hi : i = 0 <;> by_cases ho : o = 0 <;>
      simp [calculateCostFor, calculateCost, COST_RATES, numTruthy, hi, ho]
  · intro i
    by_cases hi : i = 0 <;>
      simp [calculateCostFor, calculateCost, COST_RATES, numTruthy, hi]
  · intro i
    by_cases hi : i = 0 <;>
      simp [calculateCostFor, calculateCost, COST_RATES, numTruthy, hi]

/-- Concrete instances of `calculateCost_spec`: an unknown model costs 0,
a defined model's cost is non-negative, 10 minutes of `whisper-1` cost
exactly 10 × $0.006, and 2000 tokens of `text-embedding-3-large` cost
exactly 2000/1000 × $0.00013. -/
theorem calculateCost_spec_witness :
    calculateCostFor "completion" "gpt-5" (some 10) (some 20) none = 0
    ∧ 0 ≤ calculateCostFor "completion" "gpt-4o-mini" (some 10) (some 20) none
    ∧ calculateCostFor "transcription" "whisper-1" none none (some 10)
        = 10 * 0.006
    ∧ calculateCostFor "embedding" "text-embedding-3-large" (some 2000)
        none none
        = 2000 / 1000 * 0.00013 :=
  ⟨calculateCost_spec.1 "completion" "gpt-5" (some 10) (some 20) none (by decide),
   calculateCost_spec.2.1 "completion" "gpt-4o-mini" (some 10) (some 20) none
     (by intro v hv; simp at hv; subst hv; norm_num)
     (by intro v hv; simp at hv; subst hv; norm_num)
     (by intro v hv; simp at hv),
   calculateCost_spec.2.2.1 10,
   calculateCost_spec.2.2.2.2.2 2000⟩

/-- A concrete transcription payload for concrete evaluations. -/
def sampleTranscription : TranscriptionResponse :=
  { task := "transcribe", language := "en", duration := 5,
    text := "hello world", segments := [] }

/-- C10: `cacheKey = fileHash + ':' + (language || 'en')`, so omitting the
language and passing `'en'` explicitly derive the same cache key, hence
the same fingerprint; the whole orchestrated transcription call is
extensionally identical in the two cases; and concretely, a `get` with
the language omitted is served by the entry a `set` with explicit `'en'`
created. -/
theorem transcription_language_default_spec :
    (∀ fileHash : String,
      transcriptionCacheKey fileHash none
        = transcriptionCacheKey fileHash (some "en"))
    ∧ (∀ fileHash : String,
        generateHash (transcriptionCacheKey fileHash none) transcriptionModel
          = generateHash (transcriptionCacheKey fileHash (some "en"))
              transcriptionModel)
    ∧ (∀ now fileHash fileLength videoId userId provider stringifyLength st,
        transcribeAudioCached now fileHash fileLength none videoId userId
          provider stringifyLength st
          = transcribeAudioCached now fileHash fileLength (some "en") videoId
              userId provider stringifyLength st)
    ∧ ((cacheGet 1000
          (cacheSet 0 [] "transcription"
            (transcriptionCacheKey "abc123" (some "en")) transcriptionModel
            sampleTranscription (some 60) (some 5) (some 7))
          "transcription" (transcriptionCacheKey "abc123" none)
          transcriptionModel).1 = some sampleTranscription) := by
  have hkey : ∀ fileHash : String,
      transcriptionCacheKey fileHash none
        = transcriptionCacheKey fileHash (some "en") := by
    intro fileHash
    simp [transcriptionCacheKey, jsOr]
  refine ⟨hkey, ?_, ?_, ?_⟩
  · intro fileHash
    rw [hkey]
  · intro now fileHash fileLength videoId userId provider stringifyLength st
    unfold transcribeAudioCached
    rw [hkey]
  · rw [hkey]
    decide

/-- With storage-level uniqueness of `inputHash` (the schema's `@unique`),
the entries matching a found hash are exactly the found entry. -/
theorem filter_inputHash_singleton {π : Type} (store : List (CacheEntry π))
    (hash : String) (e : CacheEntry π)
    (hfind : findUnique store hash = some e)
    (huniq : store.Pairwise (fun a b => a.inputHash ≠ b.inputHash)) :
    store.filter (fun x => x.inputHash = hash) = [e] := by
  induction store with
  | nil => simp [findUnique] at hfind
  | cons a tl ih =>
    rw [List.pairwise_cons] at huniq
    unfold findUnique at hfind
    rw [List.find?_cons] at hfind
    by_cases ha : a.inputHash = hash
    · simp only [List.find?_cons, ha, decide_True] at hfind
      have hae : a = e := by simpa using hfind
      subst hae
      have htl : tl.filter (fun x => x.inputHash = hash) = [] := by
        rw [List.filter_eq_nil_iff]
        intro x hx
        simp only [decide_eq_true_eq]
        intro hxh
        exact (huniq.1 x hx) (ha.trans hxh.symm)
      simp [List.filter_cons, ha, htl]
    · simp only [List.find?_cons, ha, decide_False] at hfind
      have := ih hfind huniq.2
      simp [List.filter_cons, ha, this]

/-- C3: lazy expiration in `get` (no `clearExpired` involved — `get` never
calls it).  If the fingerprint's entry has a non-null `expiresAt` in the
past, `get` reports absent and the entry is deleted as a side effect
(under the schema's `inputHash` uniqueness, exactly one row disappears);
if the entry is not expired, `get` increments its `hitCount` and returns
the stored payload. -/
theorem cacheGet_lazy_expiration {π : Type} (now : Time)
    (store : List (CacheEntry π)) (type content model : String)
    (e : CacheEntry π)
    (hfind : findUnique store (generateHash content model) = some e) :
    (∀ t, e.expiresAt = some t → t < now →
      (cacheGet now store type content model).1 = none
      ∧ (cacheGet now store type content model).2
          = store.filter (fun x => ¬ x.inputHash = generateHash content model)
      ∧ (store.Pairwise (fun a b => a.inputHash ≠ b.inputHash) →
          ((cacheGet now store type content model).2.length + 1
            = store.length
           ∧ ∀ x ∈ (cacheGet now store type content model).2,
               x.inputHash ≠ generateHash content model)))
    ∧ (entryExpired e now = false →
        (cacheGet now store type content model).1 = some e.response
        ∧ (cacheGet now store type content model).2
            = store.map (fun x =>
                if x.inputHash = generateHash content model then
                  { x with hitCount := x.hitCount + 1 }
                else x)) := by
  constructor
  · intro t ht hlt
    have hexp : entryExpired e now = true := by
      simp [entryExpired, ht, hlt]
    have hget : cacheGet now store type content model
        = (none, cacheDelete store (generateHash content model)) := by
      simp only [cacheGet]
      rw [hfind]
      simp [hexp]
    refine ⟨by rw [hget], by rw [hget]; simp [cacheDelete], ?_⟩
    intro huniq
    constructor
    · rw [hget]
      dsimp only
      have hsplit := store.length_eq_length_filter_add
        (fun x => x.inputHash = generateHash content model)
      rw [filter_inputHash_singleton store _ e hfind huniq] at hsplit
      simp only [List.length_cons, List.length_nil] at hsplit
      have hdel : (cacheDelete store (generateHash content model)).length
          = (store.filter (fun x =>
              ! decide (x.inputHash = generateHash content model))).length := by
        simp [cacheDelete, decide_not]
      omega
    · intro x hx
      rw [hget] at hx
      simp only [cacheDelete, List.mem_filter, decide_eq_true_eq] at hx
      simpa using hx.2
  · intro hfresh
    simp only [cacheGet]
    rw [hfind]
    simp [hfresh, incrementHit]

/-- A concrete expired cache entry and a fresh one, for witnesses. -/
def expiredEntry : CacheEntry String :=
  { type := "summary", inputHash := generateHash "k1" "gpt-4o-mini",
    response := "old", model := "gpt-4o-mini", inputSize := none,
    outputSize := none, createdAt := 0, updatedAt := 0,
    expiresAt := some 10, hitCount := 3 }

/-- A concrete non-expired cache entry, for witnesses. -/
def freshEntry : CacheEntry String :=
  { type := "summary", inputHash := generateHash "k2" "gpt-4o-mini",
    response := "new", model := "gpt-4o-mini", inputSize := some 4,
    outputSize := some 3, createdAt := 0, updatedAt := 0,
    expiresAt := some 99999, hitCount := 0 }

/-- Concrete instance of `cacheGet_lazy_expiration`: at time 100, a `get`
for the entry that expired at 10 misses and removes exactly that row,
and a `get` for the entry expiring at 99999 returns its payload with its
hit counter bumped. -/
theorem cacheGet_lazy_expiration_witness :
    ((cacheGet 100 [expiredEntry, freshEntry] "summary" "k1" "gpt-4o-mini").1
        = none
      ∧ (cacheGet 100 [expiredEntry, freshEntry] "summary" "k1"
          "gpt-4o-mini").2.length + 1 = 2)
    ∧ ((cacheGet 100 [expiredEntry, freshEntry] "summary" "k2"
          "gpt-4o-mini").1 = some "new") := by
  have h1 := cacheGet_lazy_expiration 100 [expiredEntry, freshEntry]
    "summary" "k1" "gpt-4o-mini" expiredEntry (by decide)
  have h2 := cacheGet_lazy_expiration 100 [expiredEntry, freshEntry]
    "summary" "k2" "gpt-4o-mini" freshEntry (by decide)
  have he := h1.1 10 (by decide) (by decide)
  have hu := he.2.2 (by decide)
  exact ⟨⟨he.1, by simpa using hu.1⟩, (h2.2 (by decide)).1⟩

/-- Filtering commutes with a per-row update that preserves the filter
predicate. -/
theorem filter_map_preserving {π : Type} (l : List (CacheEntry π))
    (f : CacheEntry π → CacheEntry π) (p : CacheEntry π → Bool)
    (hpres : ∀ x, p (f x) = p x) :
    (l.map f).filter p = (l.filter p).map f := by
  induction l with
  | nil => rfl
  | cons a tl ih =>
    simp only [List.map_cons, List.filter_cons, hpres]
    cases h : p a <;> simp [h, ih]

/-- The row the `create` branch of `cacheSet` inserts. -/
def freshCacheRow {π : Type} (now : Time) (type content model : String)
    (response : π) (expirationDays : Option Nat)
    (inputSize outputSize : Option Nat) : CacheEntry π :=
  { type := type, inputHash := generateHash content model,
    response := response, model := model, inputSize := inputSize,
    outputSize := outputSize, createdAt := now, updatedAt := now,
    expiresAt := expiryFromDays now expirationDays, hitCount := 0 }

/-- C8: on a store with no row for the fingerprint, the first `set`
appends exactly one fresh row with `hitCount = 0`; a second `set` with
the same `(kind, fingerprint input, model)` overwrites that row's
payload, sizes and expiry in place (keeping `createdAt` and `hitCount`),
leaving exactly one row for the fingerprint and the same row count — no
duplicate is created. -/
theorem cacheSet_upsert_idempotent {π : Type} (now1 now2 : Time)
    (store : List (CacheEntry π)) (type content model : String)
    (p1 p2 : π) (d1 d2 : Option Nat) (i1 i2 o1 o2 : Option Nat)
    (habsent : findUnique store (generateHash content model) = none) :
    (cacheSet now1 store type content model p1 d1 i1 o1).filter
        (fun x => x.inputHash = generateHash content model)
      = [freshCacheRow now1 type content model p1 d1 i1 o1]
    ∧ (cacheSet now1 store type content model p1 d1 i1 o1).length
      = store.length + 1
    ∧ (cacheSet now2 (cacheSet now1 store type content model p1 d1 i1 o1)
        type content model p2 d2 i2 o2).filter
        (fun x => x.inputHash = generateHash content model)
      = [{ freshCacheRow now1 type content model p1 d1 i1 o1 with
            response := p2, inputSize := i2, outputSize := o2,
            expiresAt := expiryFromDays now2 d2, updatedAt := now2 }]
    ∧ (cacheSet now2 (cacheSet now1 store type content model p1 d1 i1 o1)
        type content model p2 d2 i2 o2).length
      = store.length + 1 := by
  have hall : ∀ x ∈ store, ¬ (x.inputHash = generateHash content model) := by
    have := List.find?_eq_none.mp habsent
    simpa using this
  have hs1 : cacheSet now1 store type content model p1 d1 i1 o1
      = store ++ [freshCacheRow now1 type content model p1 d1 i1 o1] := by
    simp only [cacheSet]
    rw [habsent]
    rfl
  have hfilter_store :
      store.filter (fun x => x.inputHash = generateHash content model)
        = [] := by
    rw [List.filter_eq_nil_iff]
    intro x hx
    simpa using hall x hx
  have hfresh_hash :
      (freshCacheRow now1 type content model p1 d1 i1 o1
        (π := π)).inputHash = generateHash content model := rfl
  have hfilter_s1 :
      (cacheSet now1 store type content model p1 d1 i1 o1).filter
        (fun x => x.inputHash = generateHash content model)
      = [freshCacheRow now1 type content model p1 d1 i1 o1] := by
    rw [hs1, List.filter_append, hfilter_store]
    simp [hfresh_hash]
  have hfind_s1 :
      findUnique (cacheSet now1 store type content model p1 d1 i1 o1)
        (generateHash content model)
      = some (freshCacheRow now1 type content model p1 d1 i1 o1) := by
    rw [hs1]
    unfold findUnique
    rw [List.find?_append]
    rw [show store.find?
        (fun e => e.inputHash = generateHash content model) = none from habsent]
    simp [hfresh_hash]
  have hupd : ∀ (s : List (CacheEntry π)) (f : CacheEntry π),
      findUnique s (generateHash content model) = some f →
      cacheSet now2 s type content model p2 d2 i2 o2
        = s.map (fun e =>
            if e.inputHash = generateHash content model then
              { e with response := p2, inputSize := i2, outputSize := o2,
                       expiresAt := expiryFromDays now2 d2, updatedAt := now2 }
            else e) := by
    intro s f hf
    simp only [cacheSet]
    rw [hf]
  have hs2 := hupd _ _ hfind_s1
  refine ⟨hfilter_s1, by rw [hs1]; simp, ?_, ?_⟩
  · rw [hs2]
    rw [filter_map_preserving _ _ _ (by
      intro x
      by_cases hx : x.inputHash = generateHash content model <;>
        simp [hx])]
    rw [hfilter_s1]
    simp [hfresh_hash]
  · rw [hs2, List.length_map, hs1]
    simp

/-- Concrete instance of `cacheSet_upsert_idempotent`: two `set` calls on
an empty store leave one row, carrying the second payload. -/
theorem cacheSet_upsert_idempotent_witness :
    (cacheSet 7 (cacheSet 3 ([] : List (CacheEntry String)) "summary" "k"
        "gpt-4o-mini" "first" (some 60) (some 1) (some 2)) "summary" "k"
        "gpt-4o-mini" "second" (some 90) (some 3) (some 4)).filter
        (fun x => x.inputHash = generateHash "k" "gpt-4o-mini")
      = [{ freshCacheRow 3 "summary" "k" "gpt-4o-mini" "first" (some 60)
            (some 1) (some 2) with
            response := "second", inputSize := some 3, outputSize := some 4,
            expiresAt := expiryFromDays 7 (some 90), updatedAt := 7 }] :=
  (cacheSet_upsert_idempotent 3 7 [] "summary" "k" "gpt-4o-mini"
    "first" "second" (some 60) (some 90) (some 1) (some 3) (some 2) (some 4)
    (by decide)).2.2.1

/-- With no date or user filter the `whereClause` keeps every row. -/
theorem usageWhere_none_true : usageWhere none none none = fun _ => true := by
  funext r
  simp [usageWhere]

/-- A concrete `cached=true` ledger row for concrete evaluations. -/
def sampleCachedRecord : UsageRecord :=
  { type := "transcription", model := "whisper-1", inputTokens := none,
    outputTokens := none, inputMinutes := some 10, estimatedCost := 0.06,
    cached := true, timestamp := 0, videoId := none, userId := none }

/-- C1 fails as stated: on the non-empty ledger holding one cached row,
`getUsageStats` returns `cacheHitRate = 100` — the code multiplies the
ratio `cachedCount / totalCount` (here 1) by 100 — which does not lie in
`[0,1]`. -/
theorem getUsageStats_hitRate_counterexample :
    (getUsageStats [sampleCachedRecord] none none none).cacheHitRate = 100
    ∧ ¬ (getUsageStats [sampleCachedRecord] none none none).cacheHitRate
        ≤ 1 := by
  constructor <;>
    norm_num [getUsageStats, usageWhere, sampleCachedRecord]

/-- C1 amended: for a non-empty ledger, `cacheHitRate` is the percentage
`100 × cachedCount / totalCount`, and lies in `[0, 100]`. -/
theorem getUsageStats_hitRate_amended (ledger : List UsageRecord)
    (h : ledger ≠ []) :
    (getUsageStats ledger none none none).cacheHitRate
      = 100 * ((ledger.filter (·.cached)).length : ℚ) / ledger.length
    ∧ 0 ≤ (getUsageStats ledger none none none).cacheHitRate
    ∧ (getUsageStats ledger none none none).cacheHitRate ≤ 100 := by
  have hfilter : ledger.filter (usageWhere none none none) = ledger := by
    rw [usageWhere_none_true]
    exact List.filter_true ledger
  have hpos : 0 < ledger.length := List.length_pos.mpr h
  have hrate : (getUsageStats ledger none none none).cacheHitRate
      = ((ledger.filter (·.cached)).length : ℚ) / ledger.length * 100 := by
    simp only [getUsageStats, hfilter]
    rw [if_pos hpos]
  have hc : ((ledger.filter (·.cached)).length : ℚ) ≤ ledger.length := by
    exact_mod_cast List.length_filter_le _ ledger
  have hc0 : (0:ℚ) ≤ ((ledger.filter (·.cached)).length : ℚ) := by positivity
  have ht0 : (0:ℚ) < (ledger.length : ℚ) := by exact_mod_cast hpos
  refine ⟨by rw [hrate]; ring, by rw [hrate]; positivity, ?_⟩
  rw [hrate]
  have hd1 : ((ledger.filter (·.cached)).length : ℚ) / ledger.length ≤ 1 :=
    (div_le_one ht0).mpr hc
  calc ((ledger.filter (·.cached)).length : ℚ) / ledger.length * 100
      ≤ 1 * 100 := by
        apply mul_le_mul_of_nonneg_right hd1
        norm_num
    _ = 100 := by norm_num

/-- Concrete instance of `getUsageStats_hitRate_amended` at a one-row
ledger. -/
theorem getUsageStats_hitRate_amended_witness :
    (getUsageStats [sampleCachedRecord] none none none).cacheHitRate
      = 100 * (([sampleCachedRecord].filter (·.cached)).length : ℚ)
          / [sampleCachedRecord].length
    ∧ (getUsageStats [sampleCachedRecord] none none none).cacheHitRate
        ≤ 100 := by
  have h := getUsageStats_hitRate_amended [sampleCachedRecord] (by decide)
  exact ⟨h.1, h.2.2⟩

/-- A concrete cache row with one recorded hit, for concrete
evaluations. -/
def sampleCacheEntry : CacheEntry String :=
  { type := "transcription", inputHash := generateHash "key" "whisper-1",
    response := "payload", model := "whisper-1", inputSize := some 10,
    outputSize := some 20, createdAt := 0, updatedAt := 0,
    expiresAt := none, hitCount := 1 }

/-- C9 fails as stated: with one cache row carrying `hitCount = 1` and a
ledger holding a single `cached=true` row (zero real provider calls),
the claim's formula `totalCacheHits / (totalCacheHits + totalProviderCalls)`
gives `1 / (1 + 0) = 1`, but `getStats` returns 50: its denominator
counts every ledger row (including cached ones) and it multiplies by
100. -/
theorem getStats_hitRate_counterexample :
    (([sampleCachedRecord].filter (fun r => r.cached = false)).length = 0)
    ∧ (getStats [sampleCacheEntry] [sampleCachedRecord]).hitRate = 50
    ∧ (getStats [sampleCacheEntry] [sampleCachedRecord]).hitRate
        ≠ 1 / (1 + 0) := by
  refine ⟨by decide, ?_, ?_⟩ <;>
    norm_num [getStats, sampleCacheEntry, sampleCachedRecord]

/-- C9 amended: `getStats` computes `hitRate` as the percentage
`100 × totalCacheHits / (totalCacheHits + totalLedgerRows)`, where
`totalLedgerRows` counts every `APIUsage` row regardless of its `cached`
flag (0 when both are 0); the value lies in `[0, 100]`. -/
theorem getStats_hitRate_amended {π : Type} (cache : List (CacheEntry π))
    (ledger : List UsageRecord) :
    ((getStats cache ledger).hitRate
      = (if 0 < ledger.length + ((cache.map (·.hitCount)).sum) then
          100 * ((((cache.map (·.hitCount)).sum : ℕ)) : ℚ)
            / (((((cache.map (·.hitCount)).sum : ℕ)) : ℚ) + (ledger.length : ℚ))
        else 0))
    ∧ 0 ≤ (getStats cache ledger).hitRate
    ∧ (getStats cache ledger).hitRate ≤ 100 := by
  have hrate : (getStats cache ledger).hitRate
      = (if ledger.length + ((cache.map (·.hitCount)).sum) > 0 then
          ((((cache.map (·.hitCount)).sum : ℕ)) : ℚ)
            / ((ledger.length + ((cache.map (·.hitCount)).sum) : ℕ) : ℚ) * 100
        else 0) := rfl
  rw [hrate]
  generalize (cache.map (·.hitCount)).sum = s
  generalize ledger.length = n
  by_cases hpos : 0 < n + s
  · rw [if_pos hpos, if_pos hpos]
    have ht0 : (0:ℚ) < ((n + s : ℕ) : ℚ) := by exact_mod_cast hpos
    have hc : ((s : ℕ) : ℚ) ≤ ((n + s : ℕ) : ℚ) := by
      exact_mod_cast Nat.le_add_left _ _
    refine ⟨?_, by positivity, ?_⟩
    · push_cast
      ring
    · have hd1 : ((s : ℕ) : ℚ) / ((n + s : ℕ) : ℚ) ≤ 1 :=
        (div_le_one ht0).mpr hc
      calc ((s : ℕ) : ℚ) / ((n + s : ℕ) : ℚ) * 100
          ≤ 1 * 100 := by
            apply mul_le_mul_of_nonneg_right hd1
            norm_num
        _ = 100 := by norm_num
  · rw [if_neg hpos, if_neg hpos]
    norm_num

/-- A failing highlight call: the provider threw, the JSON parse threw,
or the parsed response failed validation (`highlights` missing or not a
list). -/
def highlightsFailure (outcome : ChatOutcome ParsedHighlights) : Prop :=
  (∃ msg, outcome = .callFailed msg) ∨ (∃ msg, outcome = .parseFailed msg) ∨
  (∃ v p c, outcome = .parsed v p c ∧ v.highlights = none)

/-- C2: when the highlight provider call fails or its response fails
validation, no `CacheEntry` is written (the cache is exactly the
post-lookup cache — only the lookup's lazy expiry could have removed a
stale row), no `UsageRecord` is written (ledger unchanged), the trace
contains neither a store nor a record step, and the caller receives an
error labeled `Highlight generation failed: ` wrapping the cause. -/
theorem generateHighlightsCached_failure_no_writes
    (now : Time) (transcript : String) (segments : List TimedSegment)
    (videoId userId : Option String) (outcome : ChatOutcome ParsedHighlights)
    (stringifyLength : HighlightResponse → Nat)
    (st : CapState HighlightResponse)
    (hmiss : (cacheGet now st.cache "highlights"
        (highlightsCacheKey transcript segments) highlightsModel).1 = none)
    (hfail : highlightsFailure outcome) :
    (∃ msg,
      (generateHighlightsCached now transcript segments videoId userId
        outcome stringifyLength st).result
        = .error ("Highlight generation failed: " ++ msg))
    ∧ (generateHighlightsCached now transcript segments videoId userId
        outcome stringifyLength st).state.ledger = st.ledger
    ∧ (generateHighlightsCached now transcript segments videoId userId
        outcome stringifyLength st).state.cache
      = (cacheGet now st.cache "highlights"
          (highlightsCacheKey transcript segments) highlightsModel).2
    ∧ (generateHighlightsCached now transcript segments videoId userId
        outcome stringifyLength st).trace
      = [.fingerprint, .lookup, .callProvider] := by
  rcases hfail with ⟨msg, hmsg⟩ | ⟨msg, hmsg⟩ | ⟨v, p, c, hmsg, hv⟩ <;>
    subst hmsg
  · have h : generateHighlightsCached now transcript segments videoId userId
        (.callFailed msg) stringifyLength st
        = { result := .error ("Highlight generation failed: " ++ msg),
            state := ⟨(cacheGet now st.cache "highlights"
              (highlightsCacheKey transcript segments) highlightsModel).2,
              st.ledger⟩,
            trace := [.fingerprint, .lookup, .callProvider] } := by
      simp only [generateHighlightsCached]
      rw [hmiss]
    rw [h]
    exact ⟨⟨msg, rfl⟩, rfl, rfl, rfl⟩
  · have h : generateHighlightsCached now transcript segments videoId userId
        (.parseFailed msg) stringifyLength st
        = { result := .error ("Highlight generation failed: " ++ msg),
            state := ⟨(cacheGet now st.cache "highlights"
              (highlightsCacheKey transcript segments) highlightsModel).2,
              st.ledger⟩,
            trace := [.fingerprint, .lookup, .callProvider] } := by
      simp only [generateHighlightsCached]
      rw [hmiss]
    rw [h]
    exact ⟨⟨msg, rfl⟩, rfl, rfl, rfl⟩
  · have h : generateHighlightsCached now transcript segments videoId userId
        (.parsed v p c) stringifyLength st
        = { result := .error
              "Highlight generation failed: Invalid highlights response format",
            state := ⟨(cacheGet now st.cache "highlights"
              (highlightsCacheKey transcript segments) highlightsModel).2,
              st.ledger⟩,
            trace := [.fingerprint, .lookup, .callProvider] } := by
      simp only [generateHighlightsCached]
      rw [hmiss]
      dsimp only
      rw [hv]
    rw [h]
    exact ⟨⟨"Invalid highlights response format", rfl⟩, rfl, rfl, rfl⟩

/-- Concrete instance of `generateHighlightsCached_failure_no_writes` at
an empty state with a failed provider call. -/
theorem generateHighlightsCached_failure_no_writes_witness :
    (∃ msg,
      (generateHighlightsCached 0 "talk" [] none none
        (.callFailed "rate limit") (fun _ => 9) ⟨[], []⟩).result
        = .error ("Highlight generation failed: " ++ msg))
    ∧ (generateHighlightsCached 0 "talk" [] none none
        (.callFailed "rate limit") (fun _ => 9) ⟨[], []⟩).state.ledger = []
    ∧ (generateHighlightsCached 0 "talk" [] none none
        (.callFailed "rate limit") (fun _ => 9) ⟨[], []⟩).trace
      = [.fingerprint, .lookup, .callProvider] := by
  have h := generateHighlightsCached_failure_no_writes 0 "talk" [] none none
    (.callFailed "rate limit") (fun _ => 9) ⟨[], []⟩ (by decide)
    (Or.inl ⟨"rate limit", rfl⟩)
  exact ⟨h.1, h.2.1, h.2.2.2⟩

/-- A failing topic-extraction call: the provider threw or the JSON parse
threw. -/
def topicsFailure (outcome : ChatOutcome ParsedTopics) : Prop :=
  (∃ msg, outcome = .callFailed msg) ∨ (∃ msg, outcome = .parseFailed msg)

/-- C5: when the topic-extraction call fails, the failure is swallowed:
the caller receives the plain value `[]` (the result type of
`extractKeyTopicsCached` has no error channel at all, unlike the sibling
capabilities, whose failures surface as labeled errors — see
`generateHighlightsCached_failure_no_writes`), the ledger is unchanged,
and nothing is stored. -/
theorem extractKeyTopicsCached_failure_swallowed
    (now : Time) (transcript : String) (videoId userId : Option String)
    (outcome : ChatOutcome ParsedTopics)
    (stringifyLength : List String → Nat) (st : CapState (List String))
    (hmiss : (cacheGet now st.cache "topics" ("topics:" ++ transcript)
        completionModel).1 = none)
    (hfail : topicsFailure outcome) :
    (extractKeyTopicsCached now transcript videoId userId outcome
      stringifyLength st).topics = []
    ∧ (extractKeyTopicsCached now transcript videoId userId outcome
        stringifyLength st).state.ledger = st.ledger
    ∧ (extractKeyTopicsCached now transcript videoId userId outcome
        stringifyLength st).state.cache
      = (cacheGet now st.cache "topics" ("topics:" ++ transcript)
          completionModel).2
    ∧ (extractKeyTopicsCached now transcript videoId userId outcome
        stringifyLength st).trace = [.fingerprint, .lookup, .callProvider] := by
  rcases hfail with ⟨msg, hmsg⟩ | ⟨msg, hmsg⟩ <;> subst hmsg <;>
    (simp only [extractKeyTopicsCached]
     rw [hmiss]) <;>
    exact ⟨rfl, rfl, rfl, rfl⟩

/-- Concrete instance of `extractKeyTopicsCached_failure_swallowed`: a
parse failure on an empty state resolves to `[]`. -/
theorem extractKeyTopicsCached_failure_swallowed_witness :
    (extractKeyTopicsCached 0 "talk" none none (.parseFailed "bad json")
      (fun _ => 2) ⟨[], []⟩).topics = []
    ∧ (extractKeyTopicsCached 0 "talk" none none (.parseFailed "bad json")
        (fun _ => 2) ⟨[], []⟩).state.ledger = [] := by
  have h := extractKeyTopicsCached_failure_swallowed 0 "talk" none none
    (.parseFailed "bad json") (fun _ => 2) ⟨[], []⟩ (by decide)
    (Or.inr ⟨"bad json", rfl⟩)
  exact ⟨h.1, h.2.1⟩

/-- C4 fails as stated: in a concrete successful cache-miss transcription
the effect trace is fingerprint, lookup, provider call, usage record,
cache store — the UsageRecord write (`recordMiss`) occurs strictly
before the CacheEntry write (`store`), not after it. -/
theorem miss_store_order_counterexample :
    (transcribeAudioCached 0 "h" 3 none none none
      (.ok sampleTranscription) (fun _ => 7) ⟨[], []⟩).trace
      = [.fingerprint, .lookup, .callProvider, .recordMiss, .store]
    ∧ (transcribeAudioCached 0 "h" 3 none none none
        (.ok sampleTranscription) (fun _ => 7) ⟨[], []⟩).trace.indexOf
          OrchEvent.recordMiss
      < (transcribeAudioCached 0 "h" 3 none none none
        (.ok sampleTranscription) (fun _ => 7) ⟨[], []⟩).trace.indexOf
          OrchEvent.store := by
  constructor <;> decide

/-- C4 amended: within every successful orchestrated cache-miss
invocation of transcription or highlight generation, the steps occur in
the strict order fingerprint, lookup, provider call, usage record, cache
store — i.e. the UsageRecord write (RECORD_MISS) happens before the
CacheEntry write (STORE). -/
theorem miss_success_order (now : Time) :
    (∀ (fileHash : String) (fileLength : Nat) (language : Option String)
      (videoId userId : Option String) (result : TranscriptionResponse)
      (stringifyLength : TranscriptionResponse → Nat)
      (st : CapState TranscriptionResponse),
      (cacheGet now st.cache "transcription"
        (transcriptionCacheKey fileHash language) transcriptionModel).1
        = none →
      (transcribeAudioCached now fileHash fileLength language videoId userId
        (.ok result) stringifyLength st).trace
        = [.fingerprint, .lookup, .callProvider, .recordMiss, .store])
    ∧ (∀ (transcript : String) (segments : List TimedSegment)
        (videoId userId : Option String) (v : ParsedHighlights)
        (p c : Nat) (hs : List Highlight)
        (stringifyLength : HighlightResponse → Nat)
        (st : CapState HighlightResponse),
        (cacheGet now st.cache "highlights"
          (highlightsCacheKey transcript segments) highlightsModel).1
          = none →
        v.highlights = some hs →
        (generateHighlightsCached now transcript segments videoId userId
          (.parsed v p c) stringifyLength st).trace
          = [.fingerprint, .lookup, .callProvider, .recordMiss, .store]) := by
  constructor
  · intro fileHash fileLength language videoId userId result stringifyLength
      st hmiss
    simp only [transcribeAudioCached]
    rw [hmiss]
  · intro transcript segments videoId userId v p c hs stringifyLength st
      hmiss hv
    simp only [generateHighlightsCached]
    rw [hmiss]
    dsimp only
    rw [hv]

/-- Concrete instances of `miss_success_order` on empty states. -/
theorem miss_success_order_witness :
    (transcribeAudioCached 0 "h" 3 none none none
      (.ok sampleTranscription) (fun _ => 7) ⟨[], []⟩).trace
      = [.fingerprint, .lookup, .callProvider, .recordMiss, .store]
    ∧ (generateHighlightsCached 0 "talk" [] none none
        (.parsed ⟨some [], "sum", []⟩ 11 12) (fun _ => 9) ⟨[], []⟩).trace
      = [.fingerprint, .lookup, .callProvider, .recordMiss, .store] :=
  ⟨(miss_success_order 0).1 "h" 3 none none none sampleTranscription
    (fun _ => 7) ⟨[], []⟩ (by decide),
   (miss_success_order 0).2 "talk" [] none none ⟨some [], "sum", []⟩ 11 12 []
    (fun _ => 9) ⟨[], []⟩ (by decide) rfl⟩

/-- For a fixed model the fingerprint is injective in the hashed content
(the hash model keeps the hashed string, and collisions are out of scope
by design). -/
theorem generateHash_inj (model c1 c2 : String)
    (h : generateHash c1 model = generateHash c2 model) : c1 = c2 := by
  unfold generateHash at h
  have hd := congrArg String.data h
  simp only [String.data_append] at hd
  exact String.ext (List.append_cancel_left hd)

/-- The batches cover the input exactly, in order. -/
theorem chunksOf_join {α : Type} (n : Nat) (l : List α) :
    (chunksOf (n + 1) l).flatten = l := by
  generalize hk : l.length = k
  induction k using Nat.strong_induction_on generalizing l with
  | _ k ih =>
    cases l with
    | nil => simp [chunksOf]
    | cons x xs =>
      rw [chunksOf]
      rw [List.flatten_cons]
      rw [ih ((x :: xs).drop (n + 1)).length (by subst hk; simp; omega) _ rfl]
      exact List.take_append_drop _ _

/-- `chunksOf` returns `[]` exactly on the empty input. -/
theorem chunksOf_eq_nil_iff {α : Type} (n : Nat) (l : List α) :
    chunksOf (n + 1) l = [] ↔ l = [] := by
  cases l with
  | nil => simp [chunksOf]
  | cons x xs => rw [chunksOf]; simp

/-- Every batch except possibly the last has the full size. -/
theorem chunksOf_dropLast_length {α : Type} (n : Nat) (l : List α) :
    ∀ c ∈ (chunksOf (n + 1) l).dropLast, c.length = n + 1 := by
  generalize hk : l.length = k
  induction k using Nat.strong_induction_on generalizing l with
  | _ k ih =>
    cases l with
    | nil => simp [chunksOf]
    | cons x xs =>
      rw [chunksOf]
      intro c hc
      by_cases hrest : (x :: xs).drop (n + 1) = []
      · rw [hrest] at hc
        simp [chunksOf] at hc
      · have hne : chunksOf (n + 1) ((x :: xs).drop (n + 1)) ≠ [] := by
          simpa [chunksOf_eq_nil_iff] using hrest
        rw [List.dropLast_cons_of_ne_nil hne] at hc
        rcases List.mem_cons.mp hc with hc | hc
        · subst hc
          have hlen : n + 1 ≤ (x :: xs).length := by
            by_contra hlt
            push_neg at hlt
            exact hrest (List.drop_eq_nil_of_le (by omega))
          simp only [List.length_cons] at hlen
          simp [List.length_take]
          omega
        · exact ih ((x :: xs).drop (n + 1)).length
            (by subst hk; simp; omega) _ rfl c hc

/-- Every batch is non-empty and no longer than the batch size. -/
theorem chunksOf_mem_length {α : Type} (n : Nat) (l : List α) :
    ∀ c ∈ chunksOf (n + 1) l, c ≠ [] ∧ c.length ≤ n + 1 := by
  generalize hk : l.length = k
  induction k using Nat.strong_induction_on generalizing l with
  | _ k ih =>
    cases l with
    | nil => simp [chunksOf]
    | cons x xs =>
      rw [chunksOf]
      intro c hc
      rcases List.mem_cons.mp hc with hc | hc
      · subst hc
        constructor
        · simp [List.take_cons]
        · simp [List.length_take]
      · exact ih ((x :: xs).drop (n + 1)).length
          (by subst hk; simp; omega) _ rfl c hc

/-- Batch-cache consistency relative to a universe `Bs` of batches: every
cached row keyed by the fingerprint of a batch in `Bs` is unexpired and
stores exactly that batch's embeddings under `embedOf`. -/
def goodEmbBatches (now : Time) (embedOf : String → List ℚ)
    (Bs : List (List String))
    (cache : List (CacheEntry (List (List ℚ)))) : Prop :=
  ∀ e ∈ cache, ∀ b ∈ Bs,
    e.inputHash
      = generateHash (embBatchKey b embeddingsModel) embeddingsModel →
    entryExpired e now = false ∧ e.response = b.map embedOf

/-- `cacheGet` (which only deletes or bumps `hitCount`) preserves
batch-cache consistency. -/
theorem goodEmbBatches_cacheGet (now : Time) (embedOf : String → List ℚ)
    (Bs : List (List String)) (cache : List (CacheEntry (List (List ℚ))))
    (type content model : String)
    (hgood : goodEmbBatches now embedOf Bs cache) :
    goodEmbBatches now embedOf Bs
      (cacheGet now cache type content model).2 := by
  cases hfind : findUnique cache (generateHash content model) with
  | none =>
    have hq : (cacheGet now cache type content model).2 = cache := by
      simp only [cacheGet]
      rw [hfind]
    rw [hq]
    exact hgood
  | some cached =>
    by_cases hexp : entryExpired cached now
    · have hq : (cacheGet now cache type content model).2
          = cacheDelete cache (generateHash content model) := by
        simp only [cacheGet]
        rw [hfind]
        simp [hexp]
      rw [hq]
      intro e he b hb hhash
      exact hgood e (List.mem_of_mem_filter he) b hb hhash
    · have hq : (cacheGet now cache type content model).2
          = incrementHit cache (generateHash content model) := by
        simp only [cacheGet]
        rw [hfind]
        simp [hexp]
      rw [hq]
      intro e he b hb hhash
      simp only [incrementHit, List.mem_map] at he
      obtain ⟨e0, he0, heq⟩ := he
      by_cases h0 : e0.inputHash = generateHash content model
      · rw [if_pos h0] at heq
        subst heq
        exact hgood e0 he0 b hb hhash
      · rw [if_neg h0] at heq
        subst heq
        exact hgood e0 he0 b hb hhash

/-- A cache hit for a batch of the universe returns that batch's
embeddings. -/
theorem cacheGet_hit_good (now : Time) (embedOf : String → List ℚ)
    (Bs : List (List String)) (cache : List (CacheEntry (List (List ℚ))))
    (type : String) (b : List String) (v : List (List ℚ))
    (hgood : goodEmbBatches now embedOf Bs cache) (hb : b ∈ Bs)
    (hhit : (cacheGet now cache type (embBatchKey b embeddingsModel)
        embeddingsModel).1 = some v) :
    v = b.map embedOf := by
  simp only [cacheGet] at hhit
  cases hfind : findUnique cache
      (generateHash (embBatchKey b embeddingsModel) embeddingsModel) with
  | none =>
    rw [hfind] at hhit
    exact Option.noConfusion hhit
  | some cached =>
    rw [hfind] at hhit
    by_cases hexp : entryExpired cached now
    · simp [hexp] at hhit
    · simp only [hexp] at hhit
      have hv : cached.response = v := by
        simpa [hexp] using hhit
      have hmem := List.mem_of_find?_eq_some hfind
      have hpred : cached.inputHash
          = generateHash (embBatchKey b embeddingsModel) embeddingsModel := by
        have := List.find?_some hfind
        simpa using this
      rw [← hv]
      exact (hgood cached hmem b hb hpred).2

/-- Storing a batch's embeddings with a 180-day TTL preserves batch-cache
consistency, provided the batch belongs to the universe and the batch
fingerprints are collision-free on the universe. -/
theorem goodEmbBatches_cacheSet (now : Time) (embedOf : String → List ℚ)
    (Bs : List (List String)) (cache : List (CacheEntry (List (List ℚ))))
    (b : List String) (i o : Option Nat)
    (hgood : goodEmbBatches now embedOf Bs cache) (hb : b ∈ Bs)
    (hkeys : ∀ b1 ∈ Bs, ∀ b2 ∈ Bs,
      embBatchKey b1 embeddingsModel = embBatchKey b2 embeddingsModel →
      b1 = b2) :
    goodEmbBatches now embedOf Bs
      (cacheSet now cache "embeddings" (embBatchKey b embeddingsModel)
        embeddingsModel (b.map embedOf) (some 180) i o) := by
  have hfreshexp : entryExpired
      (⟨"embeddings",
        generateHash (embBatchKey b embeddingsModel) embeddingsModel,
        b.map embedOf, embeddingsModel, i, o, now, now,
        expiryFromDays now (some 180), 0⟩ : CacheEntry (List (List ℚ)))
      now = false := by
    simp only [entryExpired, expiryFromDays]
    norm_num
  cases hfind : findUnique cache
      (generateHash (embBatchKey b embeddingsModel) embeddingsModel) with
  | some found =>
    have hset : cacheSet now cache "embeddings" (embBatchKey b embeddingsModel)
        embeddingsModel (b.map embedOf) (some 180) i o
        = cache.map (fun e =>
            if e.inputHash
                = generateHash (embBatchKey b embeddingsModel)
                    embeddingsModel then
              { e with response := b.map embedOf, inputSize := i,
                       outputSize := o,
                       expiresAt := expiryFromDays now (some 180),
                       updatedAt := now }
            else e) := by
      simp only [cacheSet]
      rw [hfind]
    rw [hset]
    intro e he b' hb' hhash
    simp only [List.mem_map] at he
    obtain ⟨e0, he0, heq⟩ := he
    by_cases h0 : e0.inputHash
        = generateHash (embBatchKey b embeddingsModel) embeddingsModel
    · rw [if_pos h0] at heq
      subst heq
      simp only at hhash
      have hbb : b = b' := hkeys b hb b' hb'
        (generateHash_inj embeddingsModel _ _ (h0.symm.trans hhash))
      subst hbb
      refine ⟨?_, rfl⟩
      simp only [entryExpired, expiryFromDays]
      norm_num
    · rw [if_neg h0] at heq
      subst heq
      exact hgood e0 he0 b' hb' hhash
  | none =>
    have hset : cacheSet now cache "embeddings" (embBatchKey b embeddingsModel)
        embeddingsModel (b.map embedOf) (some 180) i o
        = cache ++ [⟨"embeddings",
            generateHash (embBatchKey b embeddingsModel) embeddingsModel,
            b.map embedOf, embeddingsModel, i, o, now, now,
            expiryFromDays now (some 180), 0⟩] := by
      simp only [cacheSet]
      rw [hfind]
    rw [hset]
    intro e he b' hb' hhash
    rcases List.mem_append.mp he with he | he
    · exact hgood e he b' hb' hhash
    · have he' : e = ⟨"embeddings",
          generateHash (embBatchKey b embeddingsModel) embeddingsModel,
          b.map embedOf, embeddingsModel, i, o, now, now,
          expiryFromDays now (some 180), 0⟩ := by
        simpa using he
      subst he'
      simp only at hhash
      have hbb : b = b' := hkeys b hb b' hb'
        (generateHash_inj embeddingsModel _ _ hhash)
      subst hbb
      exact ⟨hfreshexp, rfl⟩

/-- The batch loop on success: output is the input's embeddings in input
order; batch-cache consistency is preserved; exactly one `UsageRecord` is
appended per batch; and the provider-call counter equals the number of
appended records with `cached = false`. -/
theorem generateEmbeddingsLoop_spec (now : Time) (embedOf : String → List ℚ)
    (tok : List String → Nat) (stringifyLength : List (List ℚ) → Nat)
    (videoId userId : Option String) (Bs : List (List String))
    (hkeys : ∀ b1 ∈ Bs, ∀ b2 ∈ Bs,
      embBatchKey b1 embeddingsModel = embBatchKey b2 embeddingsModel →
      b1 = b2) :
    ∀ (k : Nat) (texts : List String) (st : CapState (List (List ℚ))),
      texts.length ≤ k →
      (∀ b ∈ chunksOf 100 texts, b ∈ Bs) →
      goodEmbBatches now embedOf Bs st.cache →
      (generateEmbeddingsLoop now (fun b => .ok (b.map embedOf, tok b))
          stringifyLength videoId userId texts st).1
        = .ok (texts.map embedOf)
      ∧ goodEmbBatches now embedOf Bs
          (generateEmbeddingsLoop now (fun b => .ok (b.map embedOf, tok b))
            stringifyLength videoId userId texts st).2.1.cache
      ∧ ∃ recs,
          (generateEmbeddingsLoop now (fun b => .ok (b.map embedOf, tok b))
            stringifyLength videoId userId texts st).2.1.ledger
            = st.ledger ++ recs
          ∧ recs.length = (chunksOf 100 texts).length
          ∧ (generateEmbeddingsLoop now (fun b => .ok (b.map embedOf, tok b))
              stringifyLength videoId userId texts st).2.2
            = (recs.filter (fun u => u.cached = false)).length := by
  intro k
  induction k with
  | zero =>
    intro texts st hlen _ hgood
    have htexts : texts = [] :=
      List.eq_nil_of_length_eq_zero (Nat.le_zero.mp hlen)
    subst htexts
    have hnil : generateEmbeddingsLoop now
        (fun b => .ok (b.map embedOf, tok b)) stringifyLength videoId userId
        [] st = (.ok [], st, 0) := by
      simp only [generateEmbeddingsLoop]
    rw [hnil]
    exact ⟨rfl, hgood, ⟨[], by simp, by simp [chunksOf], rfl⟩⟩
  | succ k ih =>
    intro texts st hlen hsub hgood
    cases texts with
    | nil =>
      have hnil : generateEmbeddingsLoop now
          (fun b => .ok (b.map embedOf, tok b)) stringifyLength videoId
          userId [] st = (.ok [], st, 0) := by
        simp only [generateEmbeddingsLoop]
      rw [hnil]
      exact ⟨rfl, hgood, ⟨[], by simp, by simp [chunksOf], rfl⟩⟩
    | cons t ts =>
      have hchunks : chunksOf 100 (t :: ts)
          = (t :: ts).take 100 :: chunksOf 100 ((t :: ts).drop 100) := by
        rw [chunksOf]
      have hmemB : (t :: ts).take 100 ∈ Bs := by
        apply hsub
        rw [hchunks]
        exact List.mem_cons_self _ _
      have hsub' : ∀ b ∈ chunksOf 100 ((t :: ts).drop 100), b ∈ Bs := by
        intro b hbmem
        apply hsub
        rw [hchunks]
        exact List.mem_cons_of_mem _ hbmem
      have hlen' : ((t :: ts).drop 100).length ≤ k := by
        simp only [List.length_drop, List.length_cons] at hlen ⊢
        omega
      cases hhit : (cacheGet now st.cache "embeddings"
          (embBatchKey ((t :: ts).take 100) embeddingsModel)
          embeddingsModel).1 with
      | some v =>
        have hv : v = ((t :: ts).take 100).map embedOf :=
          cacheGet_hit_good now embedOf Bs st.cache "embeddings" _ v hgood
            hmemB hhit
        have hgood1 : goodEmbBatches now embedOf Bs
            (cacheGet now st.cache "embeddings"
              (embBatchKey ((t :: ts).take 100) embeddingsModel)
              embeddingsModel).2 :=
          goodEmbBatches_cacheGet now embedOf Bs st.cache _ _ _ hgood
        obtain ⟨ih1, ih2, recs', ihled, ihlen, ihcalls⟩ :=
          ih ((t :: ts).drop 100)
            ⟨(cacheGet now st.cache "embeddings"
                (embBatchKey ((t :: ts).take 100) embeddingsModel)
                embeddingsModel).2,
              trackUsage now st.ledger "embedding" embeddingsModel
                (some ((batchJoinLength ((t :: ts).take 100) : ℚ) / 4))
                none none (some true) videoId userId⟩
            hlen' hsub' hgood1
        have hloop : generateEmbeddingsLoop now
            (fun b => .ok (b.map embedOf, tok b)) stringifyLength videoId
            userId (t :: ts) st
            = (match (generateEmbeddingsLoop now
                (fun b => .ok (b.map embedOf, tok b)) stringifyLength videoId
                userId ((t :: ts).drop 100)
                ⟨(cacheGet now st.cache "embeddings"
                    (embBatchKey ((t :: ts).take 100) embeddingsModel)
                    embeddingsModel).2,
                  trackUsage now st.ledger "embedding" embeddingsModel
                    (some ((batchJoinLength ((t :: ts).take 100) : ℚ) / 4))
                    none none (some true) videoId userId⟩).1 with
              | .ok tailVecs =>
                (.ok (v ++ tailVecs),
                 (generateEmbeddingsLoop now
                   (fun b => .ok (b.map embedOf, tok b)) stringifyLength
                   videoId userId ((t :: ts).drop 100)
                   ⟨(cacheGet now st.cache "embeddings"
                       (embBatchKey ((t :: ts).take 100) embeddingsModel)
                       embeddingsModel).2,
                     trackUsage now st.ledger "embedding" embeddingsModel
                       (some ((batchJoinLength ((t :: ts).take 100) : ℚ) / 4))
                       none none (some true) videoId userId⟩).2)
              | .error msg =>
                (.error msg,
                 (generateEmbeddingsLoop now
                   (fun b => .ok (b.map embedOf, tok b)) stringifyLength
                   videoId userId ((t :: ts).drop 100)
                   ⟨(cacheGet now st.cache "embeddings"
                       (embBatchKey ((t :: ts).take 100) embeddingsModel)
                       embeddingsModel).2,
                     trackUsage now st.ledger "embedding" embeddingsModel
                       (some ((batchJoinLength ((t :: ts).take 100) : ℚ) / 4))
                       none none (some true) videoId userId⟩).2)) := by
          conv_lhs => rw [generateEmbeddingsLoop]
          rw [hhit]
        rw [hloop, ih1]
        dsimp only
        refine ⟨?_, ih2, ?_⟩
        · rw [hv]
          rw [← List.map_append]
          rw [List.take_append_drop]
        · refine ⟨({ type := "embedding", model := embeddingsModel,
                     inputTokens := some
                       ((batchJoinLength ((t :: ts).take 100) : ℚ) / 4),
                     outputTokens := none, inputMinutes := none,
                     estimatedCost := calculateCostFor "embedding"
                       embeddingsModel
                       (some ((batchJoinLength ((t :: ts).take 100) : ℚ) / 4))
                       none none,
                     cached := true, timestamp := now, videoId := videoId,
                     userId := userId } : UsageRecord) :: recs', ?_, ?_, ?_⟩
          · rw [ihled]
            simp [trackUsage]
          · rw [hchunks]
            simp [ihlen]
          · rw [ihcalls]
            simp
      | none =>
        have hgood1 : goodEmbBatches now embedOf Bs
            (cacheGet now st.cache "embeddings"
              (embBatchKey ((t :: ts).take 100) embeddingsModel)
              embeddingsModel).2 :=
          goodEmbBatches_cacheGet now embedOf Bs st.cache _ _ _ hgood
        have hgood2 : goodEmbBatches now embedOf Bs
            (cacheSet now (cacheGet now st.cache "embeddings"
                (embBatchKey ((t :: ts).take 100) embeddingsModel)
                embeddingsModel).2 "embeddings"
              (embBatchKey ((t :: ts).take 100) embeddingsModel)
              embeddingsModel (((t :: ts).take 100).map embedOf) (some 180)
              (some (batchJoinLength ((t :: ts).take 100)))
              (some (stringifyLength (((t :: ts).take 100).map embedOf)))) :=
          goodEmbBatches_cacheSet now embedOf Bs _ _ _ _ hgood1 hmemB hkeys
        obtain ⟨ih1, ih2, recs', ihled, ihlen, ihcalls⟩ :=
          ih ((t :: ts).drop 100)
            ⟨cacheSet now (cacheGet now st.cache "embeddings"
                (embBatchKey ((t :: ts).take 100) embeddingsModel)
                embeddingsModel).2 "embeddings"
              (embBatchKey ((t :: ts).take 100) embeddingsModel)
              embeddingsModel (((t :: ts).take 100).map embedOf) (some 180)
              (some (batchJoinLength ((t :: ts).take 100)))
              (some (stringifyLength (((t :: ts).take 100).map embedOf))),
              trackUsage now st.ledger "embedding" embeddingsModel
                (some ((tok ((t :: ts).take 100) : ℚ))) none none
                (some false) videoId userId⟩
            hlen' hsub' hgood2
        have hloop : generateEmbeddingsLoop now
            (fun b => .ok (b.map embedOf, tok b)) stringifyLength videoId
            userId (t :: ts) st
            = (match (generateEmbeddingsLoop now
                (fun b => .ok (b.map embedOf, tok b)) stringifyLength videoId
                userId ((t :: ts).drop 100)
                ⟨cacheSet now (cacheGet now st.cache "embeddings"
                    (embBatchKey ((t :: ts).take 100) embeddingsModel)
                    embeddingsModel).2 "embeddings"
                  (embBatchKey ((t :: ts).take 100) embeddingsModel)
                  embeddingsModel (((t :: ts).take 100).map embedOf)
                  (some 180) (some (batchJoinLength ((t :: ts).take 100)))
                  (some (stringifyLength
                    (((t :: ts).take 100).map embedOf))),
                  trackUsage now st.ledger "embedding" embeddingsModel
                    (some ((tok ((t :: ts).take 100) : ℚ))) none none
                    (some false) videoId userId⟩).1 with
              | .ok tailVecs =>
                (.ok (((t :: ts).take 100).map embedOf ++ tailVecs),
                 ((generateEmbeddingsLoop now
                   (fun b => .ok (b.map embedOf, tok b)) stringifyLength
                   videoId userId ((t :: ts).drop 100)
                   ⟨cacheSet now (cacheGet now st.cache "embeddings"
                       (embBatchKey ((t :: ts).take 100) embeddingsModel)
                       embeddingsModel).2 "embeddings"
                     (embBatchKey ((t :: ts).take 100) embeddingsModel)
                     embeddingsModel (((t :: ts).take 100).map embedOf)
                     (some 180)
                     (some (batchJoinLength ((t :: ts).take 100)))
                     (some (stringifyLength
                       (((t :: ts).take 100).map embedOf))),
                     trackUsage now st.ledger "embedding" embeddingsModel
                       (some ((tok ((t :: ts).take 100) : ℚ))) none none
                       (some false) videoId userId⟩).2.1,
                  (generateEmbeddingsLoop now
                    (fun b => .ok (b.map embedOf, tok b)) stringifyLength
                    videoId userId ((t :: ts).drop 100)
                    ⟨cacheSet now (cacheGet now st.cache "embeddings"
                        (embBatchKey ((t :: ts).take 100) embeddingsModel)
                        embeddingsModel).2 "embeddings"
                      (embBatchKey ((t :: ts).take 100) embeddingsModel)
                      embeddingsModel (((t :: ts).take 100).map embedOf)
                      (some 180)
                      (some (batchJoinLength ((t :: ts).take 100)))
                      (some (stringifyLength
                        (((t :: ts).take 100).map embedOf))),
                      trackUsage now st.ledger "embedding" embeddingsModel
                        (some ((tok ((t :: ts).take 100) : ℚ))) none none
                        (some false) videoId userId⟩).2.2 + 1))
              | .error msg =>
                (.error msg,
                 ((generateEmbeddingsLoop now
                   (fun b => .ok (b.map embedOf, tok b)) stringifyLength
                   videoId userId ((t :: ts).drop 100)
                   ⟨cacheSet now (cacheGet now st.cache "embeddings"
                       (embBatchKey ((t :: ts).take 100) embeddingsModel)
                       embeddingsModel).2 "embeddings"
                     (embBatchKey ((t :: ts).take 100) embeddingsModel)
                     embeddingsModel (((t :: ts).take 100).map embedOf)
                     (some 180)
                     (some (batchJoinLength ((t :: ts).take 100)))
                     (some (stringifyLength
                       (((t :: ts).take 100).map embedOf))),
                     trackUsage now st.ledger "embedding" embeddingsModel
                       (some ((tok ((t :: ts).take 100) : ℚ))) none none
                       (some false) videoId userId⟩).2.1,
                  (generateEmbeddingsLoop now
                    (fun b => .ok (b.map embedOf, tok b)) stringifyLength
                    videoId userId ((t :: ts).drop 100)
                    ⟨cacheSet now (cacheGet now st.cache "embeddings"
                        (embBatchKey ((t :: ts).take 100) embeddingsModel)
                        embeddingsModel).2 "embeddings"
                      (embBatchKey ((t :: ts).take 100) embeddingsModel)
                      embeddingsModel (((t :: ts).take 100).map embedOf)
                      (some 180)
                      (some (batchJoinLength ((t :: ts).take 100)))
                      (some (stringifyLength
                        (((t :: ts).take 100).map embedOf))),
                      trackUsage now st.ledger "embedding" embeddingsModel
                        (some ((tok ((t :: ts).take 100) : ℚ))) none none
                        (some false) videoId userId⟩).2.2 + 1))) := by
          conv_lhs => rw [generateEmbeddingsLoop]
          rw [hhit]
        rw [hloop, ih1]
        dsimp only
        refine ⟨?_, ih2, ?_⟩
        · rw [← List.map_append]
          rw [List.take_append_drop]
        · refine ⟨({ type := "embedding", model := embeddingsModel,
                     inputTokens := some ((tok ((t :: ts).take 100) : ℚ)),
                     outputTokens := none, inputMinutes := none,
                     estimatedCost := calculateCostFor "embedding"
                       embeddingsModel
                       (some ((tok ((t :: ts).take 100) : ℚ))) none none,
                     cached := false, timestamp := now, videoId := videoId,
                     userId := userId } : UsageRecord) :: recs', ?_, ?_, ?_⟩
          · rw [ihled]
            simp [trackUsage]
          · rw [hchunks]
            simp [ihlen]
          · rw [ihcalls]
            simp

/-- Number of batches at batch size 100. -/
theorem chunksOf_length_100 {α : Type} (l : List α) :
    (chunksOf 100 l).length = (l.length + 99) / 100 := by
  generalize hk : l.length = k
  induction k using Nat.strong_induction_on generalizing l with
  | _ k ih =>
    cases l with
    | nil =>
      simp only [List.length_nil] at hk
      subst hk
      simp [chunksOf]
    | cons x xs =>
      rw [chunksOf]
      simp only [List.length_cons]
      rw [ih (((x :: xs).drop 100).length) (by subst hk; simp; omega) _ rfl]
      subst hk
      simp only [List.length_drop, List.length_cons]
      omega

/-- C7: the embedding orchestrator partitions its input into consecutive
batches of fixed size 100 (`flatten` recovers the input in order; every
batch but the last has exactly 100 elements; no batch is empty or larger
than 100; 250 inputs yield batches of sizes 100, 100, 50).  Processing is
sequential over the batches, each fingerprinted and cached independently;
under batch-fingerprint collision-freedom and batch-cache consistency,
the call returns the embeddings of all texts in input order, appends
exactly one `UsageRecord` per batch, and invokes the provider exactly
once per batch not served from cache (the call counter equals the number
of appended `cached = false` records). -/
theorem generateEmbeddingsCached_spec :
    (∀ (texts : List String), (chunksOf 100 texts).flatten = texts)
    ∧ (∀ (texts : List String), ∀ c ∈ (chunksOf 100 texts).dropLast,
        c.length = 100)
    ∧ (∀ (texts : List String), ∀ c ∈ chunksOf 100 texts,
        c ≠ [] ∧ c.length ≤ 100)
    ∧ (chunksOf 100 (List.range 250)).map List.length = [100, 100, 50]
    ∧ (∀ (now : Time) (embedOf : String → List ℚ) (tok : List String → Nat)
        (stringifyLength : List (List ℚ) → Nat)
        (videoId userId : Option String) (texts : List String)
        (st : CapState (List (List ℚ))),
        (∀ b1 ∈ chunksOf 100 texts, ∀ b2 ∈ chunksOf 100 texts,
          embBatchKey b1 embeddingsModel = embBatchKey b2 embeddingsModel →
          b1 = b2) →
        goodEmbBatches now embedOf (chunksOf 100 texts) st.cache →
        (generateEmbeddingsCached now texts videoId userId
            (fun b => .ok (b.map embedOf, tok b)) stringifyLength st).1
          = .ok (texts.map embedOf)
        ∧ ∃ recs,
            (generateEmbeddingsCached now texts videoId userId
              (fun b => .ok (b.map embedOf, tok b)) stringifyLength
              st).2.1.ledger
              = st.ledger ++ recs
            ∧ recs.length = (chunksOf 100 texts).length
            ∧ (generateEmbeddingsCached now texts videoId userId
                (fun b => .ok (b.map embedOf, tok b)) stringifyLength
                st).2.2
              = (recs.filter (fun u => u.cached = false)).length) := by
  have h250 : (chunksOf 100 (List.range 250)).map List.length
      = [100, 100, 50] := by
    have hlen3 : (chunksOf 100 (List.range 250)).length = 3 := by
      rw [chunksOf_length_100]
      simp
    obtain ⟨a, b, c, habc⟩ := List.length_eq_three.mp hlen3
    have hfull := chunksOf_dropLast_length 99 (List.range 250)
    rw [habc] at hfull
    have ha : a.length = 100 := hfull a (by simp)
    have hb : b.length = 100 := hfull b (by simp)
    have hjoin := chunksOf_join 99 (List.range 250)
    rw [habc] at hjoin
    have hlen250 := congrArg List.length hjoin
    simp only [List.length_flatten, List.length_range, List.map_cons,
      List.map_nil, List.sum_cons, List.sum_nil] at hlen250
    have hc : c.length = 50 := by omega
    rw [habc]
    simp [ha, hb, hc]
  refine ⟨fun texts => chunksOf_join 99 texts,
    fun texts => chunksOf_dropLast_length 99 texts,
    fun texts => chunksOf_mem_length 99 texts, h250, ?_⟩
  intro now embedOf tok stringifyLength videoId userId texts st hkeys hgood
  obtain ⟨h1, _h2, recs, hled, hrlen, hcalls⟩ :=
    generateEmbeddingsLoop_spec now embedOf tok stringifyLength videoId
      userId (chunksOf 100 texts) hkeys texts.length texts st le_rfl
      (fun b hb => hb) hgood
  have hwrap : generateEmbeddingsCached now texts videoId userId
      (fun b => .ok (b.map embedOf, tok b)) stringifyLength st
      = (.ok (texts.map embedOf),
         (generateEmbeddingsLoop now (fun b => .ok (b.map embedOf, tok b))
           stringifyLength videoId userId texts st).2.1,
         (generateEmbeddingsLoop now (fun b => .ok (b.map embedOf, tok b))
           stringifyLength videoId userId texts st).2.2) := by
    simp only [generateEmbeddingsCached]
    rw [h1]
  rw [hwrap]
  exact ⟨rfl, recs, hled, hrlen, hcalls⟩

/-- Concrete instance of `generateEmbeddingsCached_spec` on two texts and
an empty cache: the output is the two texts' embeddings in order. -/
theorem generateEmbeddingsCached_spec_witness :
    (chunksOf 100 (["a", "b"] : List String)).flatten = ["a", "b"]
    ∧ (generateEmbeddingsCached 0 ["a", "b"] none none
        (fun b => .ok (b.map (fun s => [(s.length : ℚ)]), b.length))
        (fun _ => 1) ⟨[], []⟩).1
      = .ok (["a", "b"].map (fun s => [(s.length : ℚ)])) := by
  refine ⟨generateEmbeddingsCached_spec.1 ["a", "b"], ?_⟩
  have hchunks2 : chunksOf 100 (["a", "b"] : List String) = [["a", "b"]] := by
    simp [chunksOf]
  exact (generateEmbeddingsCached_spec.2.2.2.2 0 (fun s => [(s.length : ℚ)])
    (fun b => b.length) (fun _ => 1) none none ["a", "b"] ⟨[], []⟩
    (by
      rw [hchunks2]
      intro b1 hb1 b2 hb2 _
      simp only [List.mem_singleton] at hb1 hb2
      rw [hb1, hb2])
    (by
      intro e he b hb hh
      exact absurd he (List.not_mem_nil e))).1

end CluX
